import Mathlib

/-!
Verification of the collapsible-columns plugin
(src/src/plugins/collapsibleColumns/collapsibleColumns.js).

The plugin state is embedded shallowly:

* JavaScript values stored in the section state store (`collapsedSections`)
  are either `true` or `undefined`; we model an entry as `Option JsVal`
  where `none` means the key is absent.
* The nested-headers colspan settings (`settings.nestedHeaders.colspan`)
  are a JavaScript array of arrays with possible holes, modelled as
  `List (Option (List (Option Nat)))`; reading an out-of-range index
  yields `none` (undefined).
* The position translation functions of the NestedHeaders plugin and the
  colspan-offset helper are code of the repository that is not under src;
  they are modelled from the specification (sections 3, 4.2 and 6 of the
  spec) and marked as such below.

All definitions are executable; recursions use explicit structural fuel
large enough to cover every run of the original loops.
-/

set_option autoImplicit false

/-- A JavaScript value as it may appear in the section state store:
the code only ever writes the boolean literal true or undefined. -/
inductive JsVal where
  | bool (b : Bool)
  | undefined
  deriving DecidableEq, Repr

/-- The section state store, `this.collapsedSections`: a map from header
row (a negative row coordinate) and column to an entry.  `none` models a
key that is absent.  Row-level presence is not tracked separately: an
empty row object is observationally identical to an absent one, because
every read guards with a truthiness check followed by a strict equality
comparison with true. -/
abbrev Store := Int → Nat → Option JsVal

/-- Pointwise update of the store, `this.collapsedSections[row][col] = v`. -/
def writeStore (s : Store) (r : Int) (c : Nat) (v : JsVal) : Store :=
  fun r2 c2 => if r2 = r ∧ c2 = c then some v else s r2 c2

/-- The store created at plugin construction: `this.collapsedSections = {}`. -/
def emptyStore : Store := fun _ _ => none

/-- JavaScript array indexing with an integer index: any index outside
the array (including negative ones) reads as undefined. -/
def jsGetI {α : Type} (l : List α) (i : Int) : Option α :=
  if i < 0 then none else l.get? i.toNat

/-- Indexing into an array that may contain holes: a hole and an
out-of-range index both read as undefined. -/
def jsGetN (l : List (Option Nat)) (i : Nat) : Option Nat :=
  (l.get? i).bind id

/-- The nested-headers configuration the plugin reads:
`columnHeaderLevelCount` (the number of header rows) and
`settings.nestedHeaders.colspan`, an array indexed by header level from
the top, each level an array from nested column position to the colspan
recorded there.  Following the colspan-record invariant of the spec,
positions covered by a wider header carry no entry of their own. -/
structure Config where
  levelCount : Nat
  colspan : List (Option (List (Option Nat)))
  deriving Repr

/-- Reads the colspan array of one header level,
`nestedHeadersColspans[reversedIndex]`. -/
def levelArr (cfg : Config) (i : Int) : Option (List (Option Nat)) :=
  (jsGetI cfg.colspan i).bind id

/-- Scans the header cells of a level from position 0 upward and returns
the starting position of the cell that covers position x.  Helper for the
spec-modelled position translations.  The fuel is always sufficient since
every step advances by at least one position. -/
def cellStartGo (arr : List (Option Nat)) (x : Nat) : Nat → Nat → Nat
  | 0, s => s
  | fuel + 1, s =>
    if x < s + Nat.max 1 ((jsGetN arr s).getD 1) then s
    else cellStartGo arr x fuel (s + Nat.max 1 ((jsGetN arr s).getD 1))

/-- The starting position of the header cell covering position x at a
level with colspan record arr. -/
def cellStart (arr : List (Option Nat)) (x : Nat) : Nat :=
  cellStartGo arr x (x + 1) 0

/-- Modelled from the spec: `nestedColumnIndexToRealIndex` of the
NestedHeaders plugin, whose source is not under src.  Per the spec, a
position belonging to a header cell that spans several columns is owned
by that cell; the translation maps any nested position to the real index
of the header cell it belongs to at the given level (levels below the
recorded ones translate identically). -/
def nestedToRealM (cfg : Config) (row : Int) (p : Nat) : Nat :=
  match levelArr cfg ((cfg.levelCount : Int) + row) with
  | none => p
  | some arr => cellStart arr p

/-- Modelled from the spec: `realColumnIndexToNestedIndex` of the
NestedHeaders plugin, whose source is not under src.  A real column index
is translated to the nested position of the header cell containing it at
the given level, that is, the starting position of that cell. -/
def realToNestedM (cfg : Config) (row : Int) (p : Nat) : Nat :=
  match levelArr cfg ((cfg.levelCount : Int) + row) with
  | none => p
  | some arr => cellStart arr p

/-- The budget update of one loop step of `getChildHeaders`: the guard
childColspanLevel and childColspanLevel at i exceeding 1 and, when it
holds, the statement lowering the loop budget by that colspan. -/
def gchBudget (childLev : Option (List (Option Nat))) (i : Nat) (budget : Int) : Int :=
  match childLev with
  | none => budget
  | some a => if 1 < (jsGetN a i).getD 0 then budget - ((jsGetN a i).getD 0 : Int) else budget

/-- The loop of `getChildHeaders`: walks nested positions at the child
level starting from s.  The loop bound is `s + budget` where the budget
is lowered by the full colspan of any walked position that itself spans
more than one column; a real index already collected is skipped.  The
fuel is always sufficient because the budget never grows, so the loop
runs at most its initial budget many times. -/
def gchGo (cfg : Config) (childRow : Int) (childLev : Option (List (Option Nat)))
    (s : Nat) : Nat → Nat → Int → List Nat → List Nat
  | 0, _, _, acc => acc
  | fuel + 1, i, budget, acc =>
    if (i : Int) < (s : Int) + budget then
      gchGo cfg childRow childLev s fuel (i + 1) (gchBudget childLev i budget)
        (if nestedToRealM cfg childRow i ∈ acc then acc
         else acc ++ [nestedToRealM cfg childRow i])
    else acc

/-- `getChildHeaders(row, col, colspan)`: returns the real indexes of the
headers one level below the header at the given coordinates.  A colspan
of `none` models the NaN produced by `parseInt` on a missing attribute or
an undefined colspan entry, for which the loop never runs. -/
def getChildHeaders (cfg : Config) (row : Int) (col : Nat) (colspan : Option Nat) :
    List Nat :=
  match colspan with
  | none => []
  | some c0 =>
    let childLev := levelArr cfg ((cfg.levelCount : Int) + row + 1)
    let realColumnIndex := nestedToRealM cfg row col
    let s := realToNestedM cfg (row + 1) realColumnIndex
    gchGo cfg (row + 1) childLev s (c0 + 1) s (c0 : Int) []

/-- The `firstElementColspan` computation of the collapse branch of
`toggleCollapsedSection`: 1 by default, replaced by the difference of the
first two child entries when the second entry exists and is truthy. -/
def firstElemColspan (childHeaders : List Nat) : Int :=
  match childHeaders.get? 1 with
  | none => 1
  | some v => if v = 0 then 1 else (v : Int) - (childHeaders.headD 0 : Int)

/-- The integer range [lo, hi) as a list, matching an ascending for loop. -/
def intRange (lo hi : Int) : List Int :=
  (List.range (hi - lo).toNat).map (fun k : Nat => lo + (k : Int))

/-- The hiddenColumns settings object as the plugin reads and writes it:
either the literal true or an object whose columns field may be
undefined or an array of column numbers. -/
inductive HiddenSettings where
  | htrue
  | hcols (columns : Option (List Int))
  deriving DecidableEq, Repr

/-- The read at the top of `toggleCollapsedSection`: the settings value
true and an undefined columns field both read as the empty array. -/
def readHiddenS : HiddenSettings → List Int
  | .htrue => []
  | .hcols none => []
  | .hcols (some l) => l

/-- The two actions of `toggleCollapsedSection`. -/
inductive ToggleAction where
  | collapse
  | expand
  deriving DecidableEq, Repr

/-- `toggleCollapsedSection(coords, TD, action)`.  The colspan attribute
of the clicked header cell is `hcol` (`none` models the NaN of parseInt
on a missing attribute) and `colspanOffset` is the value returned by the
external call `this.hot.getColspanOffset(coords.col, headerLevel)`, which
the code treats as an opaque number.  On collapse, every column from
`coords.col + colspanOffset + firstElementColspan` up to the end of the
span is appended unless already present; on expand, every column from
offset 1 up to the end of the span is removed (first occurrence).  The
settings are then replaced wholesale with the new columns array. -/
def toggleCollapsedSection (cfg : Config) (row : Int) (col : Nat)
    (hcol : Option Nat) (colspanOffset : Int) (action : ToggleAction)
    (hs : HiddenSettings) : HiddenSettings :=
  let currentlyHidden := readHiddenS hs
  let base : Int := (col : Int) + colspanOffset
  let columnArray : List Int :=
    match action with
    | .collapse =>
      match hcol with
      | none => currentlyHidden
      | some c =>
        let childHeaders := getChildHeaders cfg row col hcol
        let f : Int := firstElemColspan childHeaders
        (intRange f (c : Int)).foldl
          (fun arr i => if (base + i) ∈ currentlyHidden then arr else arr ++ [base + i])
          currentlyHidden
    | .expand =>
      match hcol with
      | none => currentlyHidden
      | some c =>
        (intRange 1 (c : Int)).foldl (fun arr i => arr.erase (base + i)) currentlyHidden
  .hcols (some columnArray)

/-- The two states accepted by `markSectionAs`. -/
inductive MarkState where
  | collapsed
  | expanded
  deriving DecidableEq, Repr

/-- The value written into the section state store for each state:
true for collapsed and undefined (not a removal) for expanded. -/
def markValue : MarkState → JsVal
  | .collapsed => .bool true
  | .expanded => .undefined

/-- `markSectionAs(state, row, col, TH, recursive)` with explicit fuel.
Writes the state value at (row, col); when recursive, reads the colspan
of the section from the colspan settings (throwing a TypeError, modelled
by the returned flag, when the array for the level is missing), resolves
the child headers, and for every child beyond the first whose colspan at
the child level exceeds 1 recurses one level down.  The returned flag is
true when a TypeError was thrown; writes made before the throw persist.
The DOM bookkeeping of the original (the TH references) carries no state
and is omitted. -/
def markFuel (cfg : Config) : Nat → MarkState → Int → Nat → Bool → Store → Store × Bool
  | 0, _, _, _, _, s => (s, false)
  | fuel + 1, st, row, col, recursive, s =>
    let s1 := writeStore s row col (markValue st)
    if recursive then
      match levelArr cfg ((cfg.levelCount : Int) + row) with
      | none => (s1, true)
      | some arr =>
        let childHeaders := getChildHeaders cfg row col (jsGetN arr col)
        (childHeaders.drop 1).foldl
          (fun (acc : Store × Bool) h =>
            let ni := realToNestedM cfg (row + 1) h
            match levelArr cfg ((cfg.levelCount : Int) + row + 1) with
            | none => acc
            | some arr2 =>
              if (jsGetN arr2 ni).getD 0 > 1 then
                let m := markFuel cfg fuel st (row + 1) ni true acc.1
                (m.1, acc.2 || m.2)
              else acc)
          (s1, false)
    else (s1, false)

/-- `markSectionAs` with fuel covering every possible recursion depth:
each recursive step moves one level down and is guarded by the existence
of the colspan array of the next level, so the depth never exceeds the
length of the colspan settings. -/
def markSectionAs (cfg : Config) (st : MarkState) (row : Int) (col : Nat)
    (recursive : Bool) (s : Store) : Store × Bool :=
  markFuel cfg (cfg.colspan.length + 2) st row col recursive s

/-- The keys written by a recursive `markSectionAs` call: the section
itself followed by the keys of every recursive call.  This is the set of
sections the spec calls the section and its marked descendants. -/
def markKeysFuel (cfg : Config) : Nat → Int → Nat → List (Int × Nat)
  | 0, _, _ => []
  | fuel + 1, row, col =>
    (row, col) ::
      (match levelArr cfg ((cfg.levelCount : Int) + row) with
      | none => []
      | some arr =>
        ((getChildHeaders cfg row col (jsGetN arr col)).drop 1).flatMap
          (fun h =>
            let ni := realToNestedM cfg (row + 1) h
            match levelArr cfg ((cfg.levelCount : Int) + row + 1) with
            | none => []
            | some arr2 =>
              if (jsGetN arr2 ni).getD 0 > 1 then markKeysFuel cfg fuel (row + 1) ni
              else []))

/-- The marked keys at the fuel used by `markSectionAs`. -/
def markKeys (cfg : Config) (row : Int) (col : Nat) : List (Int × Nat) :=
  markKeysFuel cfg (cfg.colspan.length + 2) row col

/-- One indicator click as dispatched by `onBeforeOnCellMouseDown`:
first the recursive marking, then, unless the marking threw, the toggle
of the hidden columns. -/
def clickSection (cfg : Config) (row : Int) (col : Nat) (hcol : Option Nat)
    (colspanOffset : Int) (action : ToggleAction) (x : Store × HiddenSettings) :
    Store × HiddenSettings :=
  let st : MarkState := match action with
    | .collapse => .collapsed
    | .expand => .expanded
  let m := markSectionAs cfg st row col true x.1
  if m.2 then (m.1, x.2)
  else (m.1, toggleCollapsedSection cfg row col hcol colspanOffset action x.2)

/-- The state read of `generateIndicator`: the indicator renders as
collapsed exactly when the row object is truthy and the entry compares
strictly equal to true; any other entry, including a present undefined,
renders as expanded. -/
def generateIndicatorCollapsed (s : Store) (row : Int) (col : Nat) : Bool :=
  match s row col with
  | some (.bool true) => true
  | _ => false

/-- The guard of `onAfterGetColHeader`: an indicator element is attached
to a header cell exactly when the cell carries a colspan attribute
greater than 1 (`none` models an absent attribute). -/
def attachesIndicator (colspanAttr : Option Nat) : Bool :=
  match colspanAttr with
  | some c => 1 < c
  | none => false

/-- The presence of the two collaborator configurations in the grid
settings, as tested by `checkDependencies`. -/
structure JsSettings where
  nestedHeaders : Bool
  hiddenColumns : Bool
  deriving DecidableEq, Repr

/-- The warning text used by `checkDependencies` (the source uses the
same text for both missing dependencies). -/
def dependencyWarning : String :=
  "You need to configure the Nested Headers plugin in order to use collapsible headers."

/-- `checkDependencies`: returns the warnings written to the console and
the JavaScript return value, which is false for a missing dependency and
undefined (no return statement) when both are present. -/
def checkDependencies (s : JsSettings) : List String × Option Bool :=
  if !s.nestedHeaders then ([dependencyWarning], some false)
  else if !s.hiddenColumns then ([dependencyWarning], some false)
  else ([], none)

/-- Modelled from the spec: the base-plugin disable mechanism lives in
code that is not under src; the spec describes a plugin that can disable
itself, which we record as a flag. -/
structure PluginState where
  disabled : Bool
  deriving DecidableEq, Repr

/-- `onAfterInit`: calls `checkDependencies`, discards its result, and
stores references to the collaborator plugins.  No branch disables the
plugin, so the disabled flag is returned unchanged together with the
warnings produced by the check. -/
def onAfterInit (p : PluginState) (s : JsSettings) : PluginState × List String :=
  (p, (checkDependencies s).1)

/-- One invocation of `markSectionAs` as an abstract operation on the
section state store, used to range over sequences of operations. -/
structure MarkOp where
  state : MarkState
  row : Int
  col : Nat
  recursive : Bool

/-- Applies a sequence of marking operations to the empty store, keeping
only the store (a thrown TypeError aborts the rest of the handler but
the writes made so far persist). -/
def applyOps (cfg : Config) (ops : List MarkOp) : Store :=
  ops.foldl (fun s op => (markSectionAs cfg op.state op.row op.col op.recursive s).1)
    emptyStore

/-! ### Properties of the spec-modelled position translations -/

theorem cellStartGo_ge (arr : List (Option Nat)) (x : Nat) :
    ∀ (fuel s : Nat), s ≤ cellStartGo arr x fuel s := by
  intro fuel
  induction fuel with
  | zero => intro s; exact Nat.le_refl s
  | succ n ih =>
    intro s
    simp only [cellStartGo]
    split
    · exact Nat.le_refl s
    · exact Nat.le_trans (Nat.le_add_right s _) (ih _)

theorem cellStartGo_fuel_step (arr : List (Option Nat)) (x : Nat) :
    ∀ (fuel s : Nat), x + 1 ≤ fuel + s →
      cellStartGo arr x (fuel + 1) s = cellStartGo arr x fuel s := by
  intro fuel
  induction fuel with
  | zero =>
    intro s h
    have hc : 1 ≤ Nat.max 1 ((jsGetN arr s).getD 1) := Nat.le_max_left _ _
    simp only [cellStartGo]
    split
    · rfl
    · omega
  | succ n ih =>
    intro s h
    have hc : 1 ≤ Nat.max 1 ((jsGetN arr s).getD 1) := Nat.le_max_left _ _
    by_cases hx : x < s + Nat.max 1 ((jsGetN arr s).getD 1)
    · conv_lhs => simp only [cellStartGo]
      conv_rhs => simp only [cellStartGo]
      simp [hx]
    · conv_lhs => simp only [cellStartGo]
      conv_rhs => simp only [cellStartGo]
      simp only [hx, if_false, if_neg hx]
      exact ih _ (by omega)

theorem cellStartGo_fuel_add (arr : List (Option Nat)) (x : Nat) :
    ∀ (k fuel s : Nat), x + 1 ≤ fuel + s →
      cellStartGo arr x (fuel + k) s = cellStartGo arr x fuel s := by
  intro k
  induction k with
  | zero => intro fuel s _; rfl
  | succ n ih =>
    intro fuel s h
    have : fuel + (n + 1) = (fuel + n) + 1 := by omega
    rw [this, cellStartGo_fuel_step arr x (fuel + n) s (by omega), ih fuel s h]

theorem cellStartGo_mono (arr : List (Option Nat)) :
    ∀ (fuel x y s : Nat), x ≤ y →
      cellStartGo arr x fuel s ≤ cellStartGo arr y fuel s := by
  intro fuel
  induction fuel with
  | zero => intro x y s _; exact Nat.le_refl s
  | succ n ih =>
    intro x y s hxy
    by_cases hx : x < s + Nat.max 1 ((jsGetN arr s).getD 1)
    · simp only [cellStartGo, if_pos hx]
      split
      · exact Nat.le_refl s
      · exact cellStartGo_ge arr y (n + 1) s |>.trans_eq (by simp [cellStartGo, *])
    · have hy : ¬ y < s + Nat.max 1 ((jsGetN arr s).getD 1) := by omega
      simp only [cellStartGo, if_neg hx, if_neg hy]
      exact ih x y _ hxy

theorem cellStart_mono (arr : List (Option Nat)) {x y : Nat} (h : x ≤ y) :
    cellStart arr x ≤ cellStart arr y := by
  unfold cellStart
  have h1 : cellStartGo arr x ((x + 1) + (y - x)) 0 = cellStartGo arr x (x + 1) 0 :=
    cellStartGo_fuel_add arr x (y - x) (x + 1) 0 (by omega)
  have h2 : (x + 1) + (y - x) = y + 1 := by omega
  rw [← h1, h2]
  exact cellStartGo_mono arr (y + 1) x y 0 h

theorem nestedToRealM_mono (cfg : Config) (row : Int) {x y : Nat} (h : x ≤ y) :
    nestedToRealM cfg row x ≤ nestedToRealM cfg row y := by
  unfold nestedToRealM
  cases levelArr cfg ((cfg.levelCount : Int) + row) with
  | none => exact h
  | some arr => exact cellStart_mono arr h


/-! ### Properties of the child-header walk -/

theorem gchGo_append (cfg : Config) (childRow : Int)
    (childLev : Option (List (Option Nat))) (s : Nat) :
    ∀ (fuel i : Nat) (budget : Int) (acc : List Nat),
      ∃ l, gchGo cfg childRow childLev s fuel i budget acc = acc ++ l := by
  intro fuel
  induction fuel with
  | zero => intro i budget acc; exact ⟨[], by simp [gchGo]⟩
  | succ n ih =>
    intro i budget acc
    simp only [gchGo]
    split
    · by_cases hmem : nestedToRealM cfg childRow i ∈ acc
      · simpa [hmem] using ih (i + 1) (gchBudget childLev i budget) acc
      · obtain ⟨l, hl⟩ := ih (i + 1) (gchBudget childLev i budget)
          (acc ++ [nestedToRealM cfg childRow i])
        refine ⟨nestedToRealM cfg childRow i :: l, ?_⟩
        simp only [if_neg hmem]
        rw [hl, List.append_assoc]
        rfl
    · exact ⟨[], by simp⟩

theorem gchGo_elems (cfg : Config) (childRow : Int)
    (childLev : Option (List (Option Nat))) (s : Nat) :
    ∀ (fuel i : Nat) (budget : Int) (acc : List Nat) (a : Nat),
      a ∈ gchGo cfg childRow childLev s fuel i budget acc →
        a ∈ acc ∨ ∃ j : Nat, i ≤ j ∧ a = nestedToRealM cfg childRow j := by
  intro fuel
  induction fuel with
  | zero => intro i budget acc a h; exact Or.inl (by simpa [gchGo] using h)
  | succ n ih =>
    intro i budget acc a h
    simp only [gchGo] at h
    split at h
    · have h2 := ih (i + 1) (gchBudget childLev i budget) _ a h
      rcases h2 with h2 | ⟨j, hj, rfl⟩
      · by_cases hmem : nestedToRealM cfg childRow i ∈ acc
        · rw [if_pos hmem] at h2
          exact Or.inl h2
        · rw [if_neg hmem] at h2
          rcases List.mem_append.mp h2 with h2 | h2
          · exact Or.inl h2
          · rcases List.mem_singleton.mp h2 with rfl
            exact Or.inr ⟨i, Nat.le_refl i, rfl⟩
      · exact Or.inr ⟨j, by omega, rfl⟩
    · exact Or.inl h

theorem gchGo_nodup (cfg : Config) (childRow : Int)
    (childLev : Option (List (Option Nat))) (s : Nat) :
    ∀ (fuel i : Nat) (budget : Int) (acc : List Nat),
      acc.Nodup → (gchGo cfg childRow childLev s fuel i budget acc).Nodup := by
  intro fuel
  induction fuel with
  | zero => intro i budget acc h; simpa [gchGo] using h
  | succ n ih =>
    intro i budget acc h
    simp only [gchGo]
    split
    · apply ih
      by_cases hmem : nestedToRealM cfg childRow i ∈ acc
      · simpa [hmem] using h
      · simp [hmem, List.nodup_append, h]
    · exact h

theorem getChildHeaders_nodup (cfg : Config) (row : Int) (col : Nat)
    (colspan : Option Nat) : (getChildHeaders cfg row col colspan).Nodup := by
  cases colspan with
  | none => simp [getChildHeaders]
  | some c0 =>
    simp only [getChildHeaders]
    exact gchGo_nodup cfg (row + 1) _ _ (c0 + 1) _ _ [] List.nodup_nil

theorem gchGo_start (cfg : Config) (childRow : Int)
    (childLev : Option (List (Option Nat))) (s fuel : Nat) (budget : Int)
    (hb : 0 < budget) :
    ∃ l, gchGo cfg childRow childLev s (fuel + 1) s budget [] =
      nestedToRealM cfg childRow s :: l := by
  have hcond : (s : Int) < (s : Int) + budget := by omega
  obtain ⟨l, hl⟩ := gchGo_append cfg childRow childLev s fuel (s + 1)
    (gchBudget childLev s budget) [nestedToRealM cfg childRow s]
  refine ⟨l, ?_⟩
  simp only [gchGo, if_pos hcond, List.not_mem_nil, if_false, List.nil_append]
  exact hl

theorem getChildHeaders_zero (cfg : Config) (row : Int) (col : Nat) :
    getChildHeaders cfg row col (some 0) = [] := by
  simp only [getChildHeaders, gchGo]
  rw [if_neg]
  omega

theorem firstElemColspan_ge_one (cfg : Config) (row : Int) (col : Nat)
    (colspan : Option Nat) :
    1 ≤ firstElemColspan (getChildHeaders cfg row col colspan) := by
  rcases hL : getChildHeaders cfg row col colspan with _ | ⟨a, _ | ⟨b, t⟩⟩
  · simp [firstElemColspan]
  · simp [firstElemColspan]
  · cases colspan with
    | none => simp [getChildHeaders] at hL
    | some c0 =>
      have hc0 : 0 < c0 := by
        rcases Nat.eq_zero_or_pos c0 with h0 | h0
        · subst h0
          rw [getChildHeaders_zero] at hL
          simp at hL
        · exact h0
      obtain ⟨l, hl⟩ := gchGo_start cfg (row + 1)
        (levelArr cfg ((cfg.levelCount : Int) + row + 1))
        (realToNestedM cfg (row + 1) (nestedToRealM cfg row col)) c0 (c0 : Int)
        (by exact_mod_cast hc0)
      have hL2 : getChildHeaders cfg row col (some c0) =
          nestedToRealM cfg (row + 1)
            (realToNestedM cfg (row + 1) (nestedToRealM cfg row col)) :: l := by
        simp only [getChildHeaders]
        exact hl
      rw [hL] at hL2
      have ha : a = nestedToRealM cfg (row + 1)
          (realToNestedM cfg (row + 1) (nestedToRealM cfg row col)) :=
        (List.cons.injEq _ _ _ _ ▸ hL2).1
      have hb : b ∈ getChildHeaders cfg row col (some c0) := by
        rw [hL]; exact List.mem_cons_of_mem a (List.mem_cons_self b t)
      have hb2 : b ∈ gchGo cfg (row + 1)
          (levelArr cfg ((cfg.levelCount : Int) + row + 1))
          (realToNestedM cfg (row + 1) (nestedToRealM cfg row col)) (c0 + 1)
          (realToNestedM cfg (row + 1) (nestedToRealM cfg row col)) (c0 : Int) [] := by
        simpa only [getChildHeaders] using hb
      rcases gchGo_elems cfg (row + 1) _ _ (c0 + 1) _ _ [] b hb2 with h | ⟨j, hj, hbv⟩
      · simp at h
      · have hab : a ≤ b := by
          rw [ha, hbv]
          exact nestedToRealM_mono cfg (row + 1) hj
        have hnd := getChildHeaders_nodup cfg row col (some c0)
        rw [hL] at hnd
        have hne : a ≠ b := by
          rcases List.nodup_cons.mp hnd with ⟨hna, _⟩
          exact fun h => hna (h ▸ List.mem_cons_self b t)
        have hlt : a < b := lt_of_le_of_ne hab hne
        simp only [firstElemColspan, List.get?, List.headD]
        split
        · omega
        · omega

/-! ### Integer ranges and the hidden-column folds -/

theorem mem_intRange {lo hi x : Int} : x ∈ intRange lo hi ↔ lo ≤ x ∧ x < hi := by
  simp only [intRange, List.mem_map, List.mem_range]
  constructor
  · rintro ⟨k, hk, rfl⟩
    omega
  · rintro ⟨h1, h2⟩
    exact ⟨(x - lo).toNat, by omega, by omega⟩

theorem intRange_empty {lo hi : Int} (h : hi ≤ lo) : intRange lo hi = [] := by
  have h0 : (hi - lo).toNat = 0 := by omega
  simp [intRange, h0]

theorem intRange_cons {lo hi : Int} (h : lo < hi) :
    intRange lo hi = lo :: intRange (lo + 1) hi := by
  have h1 : (hi - lo).toNat = (hi - (lo + 1)).toNat + 1 := by omega
  have h2 : ((fun k : Nat => lo + (k : Int)) ∘ Nat.succ) =
      fun k : Nat => (lo + 1) + (k : Int) := by
    funext k
    simp only [Function.comp_apply, Nat.succ_eq_add_one]
    push_cast
    ring
  simp only [intRange, h1, List.range_succ_eq_map, List.map_cons, List.map_map, h2]
  simp

theorem intRange_split : ∀ (n : Nat) (lo mid hi : Int), (mid - lo).toNat = n →
    lo ≤ mid → mid ≤ hi → intRange lo hi = intRange lo mid ++ intRange mid hi := by
  intro n
  induction n with
  | zero =>
    intro lo mid hi hn h1 h2
    have : lo = mid := by omega
    subst this
    rw [intRange_empty (Int.le_refl lo)]
    simp
  | succ m ih =>
    intro lo mid hi hn h1 h2
    have hlm : lo < mid := by omega
    rw [intRange_cons (by omega : lo < hi), intRange_cons hlm, List.cons_append,
      ih (lo + 1) mid hi (by omega) (by omega) h2]

theorem foldAdd_eq (base : Int) (cur : List Int) :
    ∀ (L acc : List Int),
      L.foldl (fun arr i => if (base + i) ∈ cur then arr else arr ++ [base + i]) acc =
        acc ++ (L.filter (fun i => decide ((base + i) ∉ cur))).map (fun i => base + i) := by
  intro L
  induction L with
  | nil => intro acc; simp
  | cons i t ih =>
    intro acc
    by_cases h : (base + i) ∈ cur
    · simp only [List.foldl_cons, if_pos h, List.filter_cons]
      rw [ih]
      simp [h]
    · simp only [List.foldl_cons, if_neg h, List.filter_cons]
      rw [ih]
      simp [h, List.append_assoc]

theorem foldAdd_skip (base : Int) (cur : List Int) :
    ∀ (L acc : List Int), (∀ i ∈ L, (base + i) ∈ cur) →
      L.foldl (fun arr i => if (base + i) ∈ cur then arr else arr ++ [base + i]) acc = acc := by
  intro L
  induction L with
  | nil => intro acc _; rfl
  | cons i t ih =>
    intro acc h
    simp only [List.foldl_cons, if_pos (h i (List.mem_cons_self i t))]
    exact ih acc (fun j hj => h j (List.mem_cons_of_mem i hj))

theorem foldErase_skip (base : Int) :
    ∀ (L l : List Int), (∀ i ∈ L, (base + i) ∉ l) →
      L.foldl (fun arr i => arr.erase (base + i)) l = l := by
  intro L
  induction L with
  | nil => intro l _; rfl
  | cons i t ih =>
    intro l h
    simp only [List.foldl_cons]
    rw [List.erase_of_not_mem (h i (List.mem_cons_self i t))]
    exact ih l (fun j hj => h j (List.mem_cons_of_mem i hj))

theorem foldErase_nodup_mem (base : Int) :
    ∀ (L l : List Int), l.Nodup →
      (L.foldl (fun arr i => arr.erase (base + i)) l).Nodup ∧
      (∀ x : Int, x ∈ L.foldl (fun arr i => arr.erase (base + i)) l ↔
        x ∈ l ∧ ∀ i ∈ L, x ≠ base + i) := by
  intro L
  induction L with
  | nil => intro l h; exact ⟨h, by simp⟩
  | cons i t ih =>
    intro l h
    obtain ⟨hnd, hmem⟩ := ih (l.erase (base + i)) (h.erase (base + i))
    refine ⟨hnd, fun x => ?_⟩
    simp only [List.foldl_cons]
    rw [hmem x, h.mem_erase_iff]
    simp only [List.forall_mem_cons]
    tauto

theorem foldErase_restore (base : Int) (hidden : List Int) (c : Int) :
    ∀ (n : Nat) (i : Int), (c - i).toNat = n →
      (∀ t : Int, i ≤ t → t < c → (base + t) ∉ hidden) →
      (intRange i c).foldl (fun arr t => arr.erase (base + t))
        (hidden ++ (intRange i c).map (fun t => base + t)) = hidden := by
  intro n
  induction n with
  | zero =>
    intro i hn _
    rw [intRange_empty (by omega : c ≤ i)]
    simp
  | succ m ih =>
    intro i hn hh
    have hic : i < c := by omega
    rw [intRange_cons hic]
    simp only [List.map_cons, List.foldl_cons]
    rw [List.erase_append_right _ (hh i (Int.le_refl i) hic), List.erase_cons_head]
    exact ih (i + 1) (by omega) (fun t ht1 ht2 => hh t (by omega) ht2)

/-! ### Characterization of the recursive marking -/

/-- One step of the child loop in `markSectionAs`: translate the child
real index back to a nested position and recurse when the child spans
more than one column at the next level and that level exists. -/
def markChildStep (cfg : Config) (fuel : Nat) (st : MarkState) (row : Int)
    (acc : Store × Bool) (h : Nat) : Store × Bool :=
  let ni := realToNestedM cfg (row + 1) h
  match levelArr cfg ((cfg.levelCount : Int) + row + 1) with
  | none => acc
  | some arr2 =>
    if (jsGetN arr2 ni).getD 0 > 1 then
      let m := markFuel cfg fuel st (row + 1) ni true acc.1
      (m.1, acc.2 || m.2)
    else acc

/-- The keys contributed by one child in the key list of a recursive
marking. -/
def markChildKeys (cfg : Config) (fuel : Nat) (row : Int) (h : Nat) :
    List (Int × Nat) :=
  let ni := realToNestedM cfg (row + 1) h
  match levelArr cfg ((cfg.levelCount : Int) + row + 1) with
  | none => []
  | some arr2 =>
    if (jsGetN arr2 ni).getD 0 > 1 then markKeysFuel cfg fuel (row + 1) ni else []

theorem markFuel_succ (cfg : Config) (fuel : Nat) (st : MarkState) (row : Int)
    (col : Nat) (s : Store) :
    markFuel cfg (fuel + 1) st row col true s =
      match levelArr cfg ((cfg.levelCount : Int) + row) with
      | none => (writeStore s row col (markValue st), true)
      | some arr =>
        ((getChildHeaders cfg row col (jsGetN arr col)).drop 1).foldl
          (markChildStep cfg fuel st row)
          (writeStore s row col (markValue st), false) := rfl

theorem markFuel_succ_false (cfg : Config) (fuel : Nat) (st : MarkState) (row : Int)
    (col : Nat) (s : Store) :
    markFuel cfg (fuel + 1) st row col false s =
      (writeStore s row col (markValue st), false) := rfl

theorem markKeysFuel_succ (cfg : Config) (fuel : Nat) (row : Int) (col : Nat) :
    markKeysFuel cfg (fuel + 1) row col =
      (row, col) ::
        (match levelArr cfg ((cfg.levelCount : Int) + row) with
        | none => []
        | some arr =>
          ((getChildHeaders cfg row col (jsGetN arr col)).drop 1).flatMap
            (markChildKeys cfg fuel row)) := rfl

theorem markFuel_succ_none (cfg : Config) (fuel : Nat) (st : MarkState) (row : Int)
    (col : Nat) (s : Store) (hA : levelArr cfg ((cfg.levelCount : Int) + row) = none) :
    markFuel cfg (fuel + 1) st row col true s =
      (writeStore s row col (markValue st), true) := by
  rw [markFuel_succ, hA]

theorem markFuel_succ_some (cfg : Config) (fuel : Nat) (st : MarkState) (row : Int)
    (col : Nat) (s : Store) (arr : List (Option Nat))
    (hA : levelArr cfg ((cfg.levelCount : Int) + row) = some arr) :
    markFuel cfg (fuel + 1) st row col true s =
      ((getChildHeaders cfg row col (jsGetN arr col)).drop 1).foldl
        (markChildStep cfg fuel st row)
        (writeStore s row col (markValue st), false) := by
  rw [markFuel_succ, hA]

theorem markKeysFuel_succ_none (cfg : Config) (fuel : Nat) (row : Int) (col : Nat)
    (hA : levelArr cfg ((cfg.levelCount : Int) + row) = none) :
    markKeysFuel cfg (fuel + 1) row col = [(row, col)] := by
  rw [markKeysFuel_succ, hA]

theorem markKeysFuel_succ_some (cfg : Config) (fuel : Nat) (row : Int) (col : Nat)
    (arr : List (Option Nat))
    (hA : levelArr cfg ((cfg.levelCount : Int) + row) = some arr) :
    markKeysFuel cfg (fuel + 1) row col =
      (row, col) ::
        ((getChildHeaders cfg row col (jsGetN arr col)).drop 1).flatMap
          (markChildKeys cfg fuel row) := by
  rw [markKeysFuel_succ, hA]

theorem markChildKeys_none (cfg : Config) (fuel : Nat) (row : Int) (h : Nat)
    (hB : levelArr cfg ((cfg.levelCount : Int) + row + 1) = none) :
    markChildKeys cfg fuel row h = [] := by
  simp [markChildKeys, hB]

theorem markChildKeys_some_pos (cfg : Config) (fuel : Nat) (row : Int) (h : Nat)
    (arr2 : List (Option Nat))
    (hB : levelArr cfg ((cfg.levelCount : Int) + row + 1) = some arr2)
    (hg : (jsGetN arr2 (realToNestedM cfg (row + 1) h)).getD 0 > 1) :
    markChildKeys cfg fuel row h =
      markKeysFuel cfg fuel (row + 1) (realToNestedM cfg (row + 1) h) := by
  simp [markChildKeys, hB, hg]

theorem markChildKeys_some_neg (cfg : Config) (fuel : Nat) (row : Int) (h : Nat)
    (arr2 : List (Option Nat))
    (hB : levelArr cfg ((cfg.levelCount : Int) + row + 1) = some arr2)
    (hg : ¬ (jsGetN arr2 (realToNestedM cfg (row + 1) h)).getD 0 > 1) :
    markChildKeys cfg fuel row h = [] := by
  simp [markChildKeys, hB, hg]

theorem markChildStep_none (cfg : Config) (fuel : Nat) (st : MarkState) (row : Int)
    (acc : Store × Bool) (h : Nat)
    (hB : levelArr cfg ((cfg.levelCount : Int) + row + 1) = none) :
    markChildStep cfg fuel st row acc h = acc := by
  simp [markChildStep, hB]

theorem markChildStep_some_pos (cfg : Config) (fuel : Nat) (st : MarkState) (row : Int)
    (acc : Store × Bool) (h : Nat) (arr2 : List (Option Nat))
    (hB : levelArr cfg ((cfg.levelCount : Int) + row + 1) = some arr2)
    (hg : (jsGetN arr2 (realToNestedM cfg (row + 1) h)).getD 0 > 1) :
    markChildStep cfg fuel st row acc h =
      ((markFuel cfg fuel st (row + 1) (realToNestedM cfg (row + 1) h) true acc.1).1,
        acc.2 || (markFuel cfg fuel st (row + 1) (realToNestedM cfg (row + 1) h) true acc.1).2) := by
  simp [markChildStep, hB, hg]

theorem markChildStep_some_neg (cfg : Config) (fuel : Nat) (st : MarkState) (row : Int)
    (acc : Store × Bool) (h : Nat) (arr2 : List (Option Nat))
    (hB : levelArr cfg ((cfg.levelCount : Int) + row + 1) = some arr2)
    (hg : ¬ (jsGetN arr2 (realToNestedM cfg (row + 1) h)).getD 0 > 1) :
    markChildStep cfg fuel st row acc h = acc := by
  simp [markChildStep, hB, hg]

theorem markKeysFuel_level (cfg : Config) :
    ∀ (fuel : Nat) (row : Int) (col : Nat) (k : Int × Nat),
      k ∈ markKeysFuel cfg fuel row col → row ≤ k.1 := by
  intro fuel
  induction fuel with
  | zero => intro row col k h; simp [markKeysFuel] at h
  | succ n ih =>
    intro row col k h
    rcases hA : levelArr cfg ((cfg.levelCount : Int) + row) with _ | arr
    · rw [markKeysFuel_succ_none cfg n row col hA] at h
      rcases List.mem_singleton.mp h with rfl
      exact Int.le_refl row
    · rw [markKeysFuel_succ_some cfg n row col arr hA] at h
      rcases List.mem_cons.mp h with rfl | h2
      · exact Int.le_refl row
      · rcases List.mem_flatMap.mp h2 with ⟨hh, _, hk⟩
        rcases hB : levelArr cfg ((cfg.levelCount : Int) + row + 1) with _ | arr2
        · rw [markChildKeys_none cfg n row hh hB] at hk
          simp at hk
        · by_cases hg : (jsGetN arr2 (realToNestedM cfg (row + 1) hh)).getD 0 > 1
          · rw [markChildKeys_some_pos cfg n row hh arr2 hB hg] at hk
            have := ih (row + 1) _ k hk
            omega
          · rw [markChildKeys_some_neg cfg n row hh arr2 hB hg] at hk
            simp at hk

theorem markFuel_writes (cfg : Config) (st : MarkState) (r : Int) (c : Nat) :
    ∀ (fuel : Nat) (row : Int) (col : Nat) (s : Store),
      (markFuel cfg fuel st row col true s).1 r c =
        if (r, c) ∈ markKeysFuel cfg fuel row col then some (markValue st)
        else s r c := by
  intro fuel
  induction fuel with
  | zero => intro row col s; simp [markFuel, markKeysFuel]
  | succ n ih =>
    intro row col s
    rcases hA : levelArr cfg ((cfg.levelCount : Int) + row) with _ | arr
    · rw [markFuel_succ_none cfg n st row col s hA, markKeysFuel_succ_none cfg n row col hA]
      simp only [List.mem_singleton]
      by_cases h1 : (r, c) = (row, col)
      · have h2 : r = row ∧ c = col := Prod.mk.injEq .. ▸ h1
        simp [writeStore, h1, h2]
      · have h2 : ¬(r = row ∧ c = col) := fun hcon => h1 (Prod.ext_iff.mpr hcon)
        simp [writeStore, h1, h2]
    · rw [markFuel_succ_some cfg n st row col s arr hA,
        markKeysFuel_succ_some cfg n row col arr hA]
      have hfold : ∀ (l : List Nat) (sb : Store × Bool),
          (l.foldl (markChildStep cfg n st row) sb).1 r c =
            if (r, c) ∈ l.flatMap (markChildKeys cfg n row) then some (markValue st)
            else sb.1 r c := by
        intro l
        induction l with
        | nil => intro sb; simp
        | cons hh t ihl =>
          intro sb
          have hstep : (markChildStep cfg n st row sb hh).1 r c =
              if (r, c) ∈ markChildKeys cfg n row hh then some (markValue st)
              else sb.1 r c := by
            rcases hB : levelArr cfg ((cfg.levelCount : Int) + row + 1) with _ | arr2
            · rw [markChildStep_none cfg n st row sb hh hB,
                markChildKeys_none cfg n row hh hB]
              simp
            · by_cases hg : (jsGetN arr2 (realToNestedM cfg (row + 1) hh)).getD 0 > 1
              · rw [markChildStep_some_pos cfg n st row sb hh arr2 hB hg,
                  markChildKeys_some_pos cfg n row hh arr2 hB hg]
                exact ih (row + 1) _ sb.1
              · rw [markChildStep_some_neg cfg n st row sb hh arr2 hB hg,
                  markChildKeys_some_neg cfg n row hh arr2 hB hg]
                simp
          rw [List.foldl_cons, ihl (markChildStep cfg n st row sb hh), hstep]
          simp only [List.flatMap_cons, List.mem_append]
          by_cases h1 : (r, c) ∈ markChildKeys cfg n row hh <;>
            by_cases h2 : (r, c) ∈ t.flatMap (markChildKeys cfg n row) <;>
            simp [h1, h2]
      rw [hfold]
      simp only [List.mem_cons]
      by_cases h1 : (r, c) = (row, col)
      · have h4 : r = row ∧ c = col := Prod.mk.injEq .. ▸ h1
        by_cases h2 : (r, c) ∈ ((getChildHeaders cfg row col (jsGetN arr col)).drop 1).flatMap
            (markChildKeys cfg n row) <;>
          simp [writeStore, h1, h2, h4]
      · have h3 : ¬(r = row ∧ c = col) := fun hcon => h1 (Prod.ext_iff.mpr hcon)
        by_cases h2 : (r, c) ∈ ((getChildHeaders cfg row col (jsGetN arr col)).drop 1).flatMap
            (markChildKeys cfg n row) <;>
          simp [writeStore, h1, h2, h3]

theorem markSectionAs_writes (cfg : Config) (st : MarkState) (row : Int) (col : Nat)
    (s : Store) (r : Int) (c : Nat) :
    (markSectionAs cfg st row col true s).1 r c =
      if (r, c) ∈ markKeys cfg row col then some (markValue st) else s r c :=
  markFuel_writes cfg st r c (cfg.colspan.length + 2) row col s

theorem markFuel_noThrow (cfg : Config) (st : MarkState) :
    ∀ (fuel : Nat) (row : Int) (col : Nat) (s : Store),
      levelArr cfg ((cfg.levelCount : Int) + row) ≠ none →
      (markFuel cfg fuel st row col true s).2 = false := by
  intro fuel
  induction fuel with
  | zero => intro row col s _; rfl
  | succ n ih =>
    intro row col s hA
    rcases hB : levelArr cfg ((cfg.levelCount : Int) + row) with _ | arr
    · exact absurd hB hA
    · rw [markFuel_succ_some cfg n st row col s arr hB]
      have hfold : ∀ (l : List Nat) (sb : Store × Bool), sb.2 = false →
          (l.foldl (markChildStep cfg n st row) sb).2 = false := by
        intro l
        induction l with
        | nil => intro sb h; exact h
        | cons hh t ihl =>
          intro sb h
          rw [List.foldl_cons]
          apply ihl
          rcases hC : levelArr cfg ((cfg.levelCount : Int) + row + 1) with _ | arr2
          · rw [markChildStep_none cfg n st row sb hh hC]
            exact h
          · by_cases hg : (jsGetN arr2 (realToNestedM cfg (row + 1) hh)).getD 0 > 1
            · rw [markChildStep_some_pos cfg n st row sb hh arr2 hC hg]
              have hm : (markFuel cfg n st (row + 1)
                  (realToNestedM cfg (row + 1) hh) true sb.1).2 = false := by
                apply ih
                have he : (cfg.levelCount : Int) + (row + 1) =
                    (cfg.levelCount : Int) + row + 1 := by ring
                rw [he, hC]
                simp
              simp [h, hm]
            · rw [markChildStep_some_neg cfg n st row sb hh arr2 hC hg]
              exact h
      exact hfold _ _ rfl

theorem markSectionAs_noThrow (cfg : Config) (st : MarkState) (row : Int) (col : Nat)
    (s : Store) (hA : levelArr cfg ((cfg.levelCount : Int) + row) ≠ none) :
    (markSectionAs cfg st row col true s).2 = false :=
  markFuel_noThrow cfg st (cfg.colspan.length + 2) row col s hA

theorem markFuel_values (cfg : Config) (st : MarkState) (fuel : Nat) (row : Int)
    (col : Nat) (rec : Bool) (s : Store)
    (hs : ∀ (r2 : Int) (c2 : Nat), s r2 c2 = none ∨ s r2 c2 = some JsVal.undefined ∨
      s r2 c2 = some (JsVal.bool true)) (r2 : Int) (c2 : Nat) :
    (markFuel cfg fuel st row col rec s).1 r2 c2 = none ∨
    (markFuel cfg fuel st row col rec s).1 r2 c2 = some JsVal.undefined ∨
    (markFuel cfg fuel st row col rec s).1 r2 c2 = some (JsVal.bool true) := by
  cases rec with
  | true =>
    rw [markFuel_writes cfg st r2 c2 fuel row col s]
    split
    · cases st <;> simp [markValue]
    · exact hs r2 c2
  | false =>
    cases fuel with
    | zero => exact hs r2 c2
    | succ n =>
      rw [markFuel_succ_false]
      simp only [writeStore]
      split
      · cases st <;> simp [markValue]
      · exact hs r2 c2

/-! ### The toggle branches in closed form -/

theorem toggle_collapse_eq (cfg : Config) (row : Int) (col : Nat) (c : Nat)
    (off : Int) (hs : HiddenSettings) :
    toggleCollapsedSection cfg row col (some c) off .collapse hs =
      .hcols (some
        ((intRange (firstElemColspan (getChildHeaders cfg row col (some c))) (c : Int)).foldl
          (fun arr i => if (((col : Int) + off) + i) ∈ readHiddenS hs then arr
            else arr ++ [((col : Int) + off) + i])
          (readHiddenS hs))) := rfl

theorem toggle_expand_eq (cfg : Config) (row : Int) (col : Nat) (c : Nat)
    (off : Int) (hs : HiddenSettings) :
    toggleCollapsedSection cfg row col (some c) off .expand hs =
      .hcols (some
        ((intRange 1 (c : Int)).foldl
          (fun arr i => arr.erase (((col : Int) + off) + i))
          (readHiddenS hs))) := rfl

theorem toggle_collapse_result (cfg : Config) (row : Int) (col : Nat) (c : Nat)
    (off : Int) (hs : HiddenSettings) :
    readHiddenS (toggleCollapsedSection cfg row col (some c) off .collapse hs) =
      readHiddenS hs ++
        ((intRange (firstElemColspan (getChildHeaders cfg row col (some c))) (c : Int)).filter
          (fun i => decide ((((col : Int) + off) + i) ∉ readHiddenS hs))).map
          (fun i => ((col : Int) + off) + i) := by
  rw [toggle_collapse_eq]
  exact foldAdd_eq ((col : Int) + off) (readHiddenS hs) _ _

theorem clickSection_collapse_eq (cfg : Config) (row : Int) (col : Nat)
    (hcol : Option Nat) (off : Int) (x : Store × HiddenSettings)
    (hA : levelArr cfg ((cfg.levelCount : Int) + row) ≠ none) :
    clickSection cfg row col hcol off .collapse x =
      ((markSectionAs cfg .collapsed row col true x.1).1,
        toggleCollapsedSection cfg row col hcol off .collapse x.2) := by
  have hm : (markSectionAs cfg .collapsed row col true x.1).2 = false :=
    markSectionAs_noThrow cfg .collapsed row col x.1 hA
  simp [clickSection, hm]

theorem clickSection_expand_eq (cfg : Config) (row : Int) (col : Nat)
    (hcol : Option Nat) (off : Int) (x : Store × HiddenSettings)
    (hA : levelArr cfg ((cfg.levelCount : Int) + row) ≠ none) :
    clickSection cfg row col hcol off .expand x =
      ((markSectionAs cfg .expanded row col true x.1).1,
        toggleCollapsedSection cfg row col hcol off .expand x.2) := by
  have hm : (markSectionAs cfg .expanded row col true x.1).2 = false :=
    markSectionAs_noThrow cfg .expanded row col x.1 hA
  simp [clickSection, hm]

/-! ### Concrete configurations used by the scenario and counterexample
theorems.  Rows are listed from the top header level downward; positions
covered by a spanning header carry no entry, per the colspan-record
invariant of the spec. -/

/-- Two header levels: level 0 spans columns 0 to 3; level 1 has two
single columns at 0 and 1 and one merged header spanning columns 2, 3. -/
def cfgCascade : Config :=
  { levelCount := 2, colspan := [some [some 4], some [some 1, some 1, some 2]] }

/-- Two header levels: level 0 spans columns 0 to 3; level 1 has one
merged header spanning columns 0, 1 followed by single columns 2 and 3. -/
def cfgMergedFirst : Config :=
  { levelCount := 2, colspan := [some [some 4], some [some 2, none, some 1, some 1]] }

/-- A configuration whose colspan settings array is empty, so the colspan
array of every level is missing. -/
def cfgNoArr : Config := { levelCount := 1, colspan := [] }

/-- One header level with a single section spanning columns 0, 1. -/
def cfgOneLevel : Config := { levelCount := 1, colspan := [some [some 2]] }

/-- A store in which the level-1 merged child of `cfgCascade` is already
collapsed. -/
def storeChildCollapsed : Store := writeStore emptyStore (-1) 2 (JsVal.bool true)

/-- C10: every operation preserves the property that a section is
observably collapsed exactly when its Section State Store entry is
strictly equal to true: the expand marking stores undefined at the key
instead of deleting it, and the indicator renderer compares the stored
entry with strict equality against true, so a present-but-undefined
entry renders and behaves exactly like an absent one. -/
theorem C10_undef_semantics :
    (∀ (cfg : Config) (s : Store) (row : Int) (col : Nat) (rec : Bool),
      (markSectionAs cfg MarkState.expanded row col rec s).1 row col =
        some JsVal.undefined) ∧
    (∀ (s : Store) (r : Int) (c : Nat),
      generateIndicatorCollapsed s r c = true ↔ s r c = some (JsVal.bool true)) ∧
    (∀ (s : Store) (r : Int) (c : Nat),
      generateIndicatorCollapsed (writeStore s r c JsVal.undefined) r c =
        generateIndicatorCollapsed (fun r2 c2 => if r2 = r ∧ c2 = c then none else s r2 c2) r c) := by
  refine ⟨?_, ?_, ?_⟩
  · intro cfg s row col rec
    cases rec with
    | true =>
      rw [markSectionAs_writes cfg MarkState.expanded row col s row col]
      rw [if_pos]
      · rfl
      · show (row, col) ∈ markKeys cfg row col
        rw [markKeys, markKeysFuel_succ]
        exact List.mem_cons_self _ _
    | false =>
      show (markFuel cfg (cfg.colspan.length + 2) MarkState.expanded row col false s).1 row col =
        some JsVal.undefined
      rw [markFuel_succ_false]
      simp [writeStore, markValue]
  · intro s r c
    unfold generateIndicatorCollapsed
    rcases s r c with _ | v
    · simp
    · rcases v with b | _
      · cases b <;> simp
      · simp
  · intro s r c
    unfold generateIndicatorCollapsed
    simp [writeStore]

/-- C4 counterexample: one expand marking on the empty store leaves the
key present (holding undefined) instead of removing it, so the map does
contain an entry for an expanded section. -/
theorem C4_sparse_cex :
    applyOps cfgOneLevel [⟨MarkState.expanded, -1, 0, true⟩] (-1) 0 =
      some JsVal.undefined ∧
    applyOps cfgOneLevel [⟨MarkState.expanded, -1, 0, true⟩] (-1) 0 ≠ none := by
  constructor
  · decide
  · decide

/-- C4 amended: after any sequence of marking operations starting from
the empty store, every entry is absent, undefined, or the boolean true;
the literal false is never stored, and expanding stores undefined rather
than removing the entry. -/
theorem C4_store_values_amended (cfg : Config) (ops : List MarkOp) (r : Int) (c : Nat) :
    applyOps cfg ops r c = none ∨ applyOps cfg ops r c = some JsVal.undefined ∨
      applyOps cfg ops r c = some (JsVal.bool true) := by
  suffices h : ∀ (l : List MarkOp) (s : Store),
      (∀ (r2 : Int) (c2 : Nat), s r2 c2 = none ∨ s r2 c2 = some JsVal.undefined ∨
        s r2 c2 = some (JsVal.bool true)) →
      ∀ (r2 : Int) (c2 : Nat),
        (l.foldl (fun s op => (markSectionAs cfg op.state op.row op.col op.recursive s).1) s) r2 c2 = none ∨
        (l.foldl (fun s op => (markSectionAs cfg op.state op.row op.col op.recursive s).1) s) r2 c2 = some JsVal.undefined ∨
        (l.foldl (fun s op => (markSectionAs cfg op.state op.row op.col op.recursive s).1) s) r2 c2 = some (JsVal.bool true) by
    exact h ops emptyStore (fun _ _ => Or.inl rfl) r c
  intro l
  induction l with
  | nil => intro s hs r2 c2; exact hs r2 c2
  | cons op t ih =>
    intro s hs r2 c2
    rw [List.foldl_cons]
    apply ih
    intro r3 c3
    exact markFuel_values cfg op.state (cfg.colspan.length + 2) op.row op.col
      op.recursive s hs r3 c3

/-- C5 counterexample: in `cfgMergedFirst` the level-0 section has three
immediate children, at nested positions 0 (spanning two columns), 2 and
3, yet the walk returns a single entry: shrinking the loop bound by the
full colspan of the spanning child cuts off the trailing children, and
the walked covered position (snapping to the same real index) shows the
sub-columns are still walked. -/
theorem C5_children_cex :
    getChildHeaders cfgMergedFirst (-2) 0 (some 4) = [0] ∧
    levelArr cfgMergedFirst 1 = some [some 2, none, some 1, some 1] ∧
    jsGetN [some 2, none, some 1, some 1] 2 = some 1 ∧
    jsGetN [some 2, none, some 1, some 1] 3 = some 1 := by
  refine ⟨by decide, by decide, by decide, by decide⟩

/-- C5 amended: the walk reduces its remaining bound by the full colspan
of a spanning child rather than skipping over its covered positions, so
trailing children can be omitted; the part of the claim that holds for
every input is that the returned list never repeats a real index. -/
theorem C5_children_nodup_amended (cfg : Config) (row : Int) (col : Nat)
    (colspan : Option Nat) : (getChildHeaders cfg row col colspan).Nodup :=
  getChildHeaders_nodup cfg row col colspan

/-- C7 counterexample: a recursive marking whose own level has no colspan
array throws a TypeError while reading the colspan of the section. -/
theorem C7_throw_cex :
    (markSectionAs cfgNoArr MarkState.collapsed (-1) 0 true emptyStore).2 = true := by
  decide

/-- C7 amended: when the colspan array of the marked level is present the
recursive marking never throws, whatever the colspan data below it looks
like, and when the colspan array of the child level is missing the
recursion stops: only the section itself is written. -/
theorem C7_guard_amended (cfg : Config) (st : MarkState) (row : Int) (col : Nat)
    (s : Store) (hA : levelArr cfg ((cfg.levelCount : Int) + row) ≠ none) :
    (markSectionAs cfg st row col true s).2 = false ∧
    (levelArr cfg ((cfg.levelCount : Int) + row + 1) = none →
      ∀ (r : Int) (c : Nat), ¬(r = row ∧ c = col) →
        (markSectionAs cfg st row col true s).1 r c = s r c) := by
  constructor
  · exact markSectionAs_noThrow cfg st row col s hA
  · intro hB r c hrc
    rw [markSectionAs_writes cfg st row col s r c]
    rw [if_neg]
    intro hmem
    rcases hArr : levelArr cfg ((cfg.levelCount : Int) + row) with _ | arr
    · exact hA hArr
    · rw [markKeys, markKeysFuel_succ_some cfg (cfg.colspan.length + 1) row col arr hArr] at hmem
      rcases List.mem_cons.mp hmem with heq | h2
      · exact hrc (Prod.mk.injEq .. ▸ heq)
      · rcases List.mem_flatMap.mp h2 with ⟨hh, _, hk⟩
        rw [markChildKeys_none cfg (cfg.colspan.length + 1) row hh hB] at hk
        simp at hk

/-- C7 amended, witness at a concrete input. -/
theorem C7_guard_amended_witness :
    (markSectionAs cfgOneLevel MarkState.collapsed (-1) 0 true emptyStore).2 = false ∧
    (levelArr cfgOneLevel ((cfgOneLevel.levelCount : Int) + (-1) + 1) = none →
      ∀ (r : Int) (c : Nat), ¬(r = -1 ∧ c = 0) →
        (markSectionAs cfgOneLevel MarkState.collapsed (-1) 0 true emptyStore).1 r c =
          emptyStore r c) :=
  C7_guard_amended cfgOneLevel MarkState.collapsed (-1) 0 emptyStore (by decide)

/-- C2: in the cascade configuration, collapsing the level-0 section at
position 0 hides exactly the real columns 1, 2 and 3 (the first child
has colspan 1, so one leading column stays visible) and also marks the
level-1 merged child, at nested position 2, as collapsed. -/
theorem C2_cascade :
    readHiddenS (clickSection cfgCascade (-2) 0 (some 4) 0 ToggleAction.collapse
      (emptyStore, HiddenSettings.hcols (some []))).2 = [1, 2, 3] ∧
    (clickSection cfgCascade (-2) 0 (some 4) 0 ToggleAction.collapse
      (emptyStore, HiddenSettings.hcols (some []))).1 (-1) 2 =
        some (JsVal.bool true) ∧
    generateIndicatorCollapsed
      (clickSection cfgCascade (-2) 0 (some 4) 0 ToggleAction.collapse
        (emptyStore, HiddenSettings.hcols (some []))).1 (-1) 2 = true := by
  refine ⟨by decide, by decide, by decide⟩

/-- C6 counterexample: activating without the nested-headers setting
logs the dependency warning, yet the plugin is not disabled, because
`onAfterInit` discards the result of `checkDependencies` and continues. -/
theorem C6_disable_cex :
    (checkDependencies ⟨false, true⟩).1 ≠ [] ∧
    (onAfterInit ⟨false⟩ ⟨false, true⟩).1.disabled = false := by
  exact ⟨by simp [checkDependencies, dependencyWarning], rfl⟩

/-- C6 amended: with either collaborator configuration missing the check
logs the warning and returns false, but the plugin does not disable
itself: `onAfterInit` ignores the result and returns the plugin state
unchanged; the check raises nothing, and indicator affordances are only
attached to header cells carrying a colspan attribute above 1, so cells
without one (as when nested headers are absent) receive none. -/
theorem C6_warn_amended (p : PluginState) (s : JsSettings)
    (h : s.nestedHeaders = false ∨ s.hiddenColumns = false) :
    (checkDependencies s).1 = [dependencyWarning] ∧
    (checkDependencies s).2 = some false ∧
    (onAfterInit p s).1 = p ∧
    attachesIndicator none = false ∧
    attachesIndicator (some 1) = false := by
  have h1 : (checkDependencies s).1 = [dependencyWarning] ∧
      (checkDependencies s).2 = some false := by
    rcases h with h | h
    · simp [checkDependencies, h]
    · rcases hn : s.nestedHeaders with _ | _ <;> simp [checkDependencies, hn, h]
  exact ⟨h1.1, h1.2, rfl, rfl, rfl⟩

/-- C6 amended, witness at a concrete input. -/
theorem C6_warn_amended_witness :
    (checkDependencies ⟨false, true⟩).1 = [dependencyWarning] ∧
    (checkDependencies ⟨false, true⟩).2 = some false ∧
    (onAfterInit ⟨false⟩ ⟨false, true⟩).1 = ⟨false⟩ ∧
    attachesIndicator none = false ∧
    attachesIndicator (some 1) = false :=
  C6_warn_amended ⟨false⟩ ⟨false, true⟩ (Or.inl rfl)

/-- C3 counterexample: in `cfgMergedFirst` the first immediate child of
the level-0 section spans two columns (colspan record 2 at position 0 of
level 1), so by the claim two leading columns should stay visible and the
hidden set should be the columns 2 and 3; the code instead keeps only
one column visible and hides columns 1, 2 and 3, including column 1
inside the first child. -/
theorem C3_offset_cex :
    readHiddenS (toggleCollapsedSection cfgMergedFirst (-2) 0 (some 4) 0
      ToggleAction.collapse (HiddenSettings.hcols (some []))) = [1, 2, 3] ∧
    levelArr cfgMergedFirst 1 = some [some 2, none, some 1, some 1] ∧
    jsGetN [some 2, none, some 1, some 1] 0 = some 2 := by
  refine ⟨by decide, by decide, by decide⟩

/-- C3 amended: on collapse, exactly the real columns at offsets from
the computed firstElementColspan through colspan minus 1, measured from
the clicked column plus the pre-existing column-hiding offset, are added
to the hidden set, skipping indices already present; the computed offset
equals the difference of the first two entries of the child walk, and is
1 when the walk returns fewer than two entries (in particular when the
section has no children). -/
theorem C3_collapse_delta_amended (cfg : Config) (row : Int) (col : Nat) (c : Nat)
    (off : Int) (hs : HiddenSettings) :
    (∀ x : Int,
      x ∈ readHiddenS (toggleCollapsedSection cfg row col (some c) off
          ToggleAction.collapse hs) ↔
        x ∈ readHiddenS hs ∨
          ∃ i : Int, firstElemColspan (getChildHeaders cfg row col (some c)) ≤ i ∧
            i < (c : Int) ∧ x = ((col : Int) + off) + i) ∧
    ((getChildHeaders cfg row col (some c)).length ≤ 1 →
      firstElemColspan (getChildHeaders cfg row col (some c)) = 1) := by
  constructor
  · intro x
    rw [toggle_collapse_result]
    simp only [List.mem_append, List.mem_map, List.mem_filter]
    constructor
    · rintro (h | ⟨i, ⟨hi1, hi2⟩, rfl⟩)
      · exact Or.inl h
      · rcases mem_intRange.mp hi1 with ⟨hl, hr⟩
        exact Or.inr ⟨i, hl, hr, rfl⟩
    · rintro (h | ⟨i, hl, hr, rfl⟩)
      · exact Or.inl h
      · by_cases hx : (((col : Int) + off) + i) ∈ readHiddenS hs
        · exact Or.inl hx
        · exact Or.inr ⟨i, ⟨mem_intRange.mpr ⟨hl, hr⟩, by simpa using hx⟩, rfl⟩
  · intro hlen
    rcases hL : getChildHeaders cfg row col (some c) with _ | ⟨a, _ | ⟨b, t⟩⟩
    · simp [firstElemColspan]
    · simp [firstElemColspan]
    · rw [hL] at hlen
      simp at hlen

/-- C3 amended, witness at a concrete input. -/
theorem C3_collapse_delta_amended_witness :
    (∀ x : Int,
      x ∈ readHiddenS (toggleCollapsedSection cfgCascade (-2) 0 (some 4) 0
          ToggleAction.collapse (HiddenSettings.hcols (some []))) ↔
        x ∈ readHiddenS (HiddenSettings.hcols (some [])) ∨
          ∃ i : Int, firstElemColspan (getChildHeaders cfgCascade (-2) 0 (some 4)) ≤ i ∧
            i < (4 : Int) ∧ x = ((0 : Int) + 0) + i) ∧
    ((getChildHeaders cfgCascade (-2) 0 (some 4)).length ≤ 1 →
      firstElemColspan (getChildHeaders cfgCascade (-2) 0 (some 4)) = 1) := by
  have h := C3_collapse_delta_amended cfgCascade (-2) 0 4 0 (HiddenSettings.hcols (some []))
  simpa using h

/-- The colspan consulted by the recursion guard of `markSectionAs` for a
child with real index h: the entry of the next-level colspan array at the
nested position of the child, or 0 when that array or entry is missing
(both make the guard fail). -/
def childGuardColspan (cfg : Config) (row : Int) (h : Nat) : Nat :=
  match levelArr cfg ((cfg.levelCount : Int) + row + 1) with
  | none => 0
  | some arr2 => (jsGetN arr2 (realToNestedM cfg (row + 1) h)).getD 0

theorem childGuardColspan_none (cfg : Config) (row : Int) (h : Nat)
    (hB : levelArr cfg ((cfg.levelCount : Int) + row + 1) = none) :
    childGuardColspan cfg row h = 0 := by
  simp [childGuardColspan, hB]

theorem childGuardColspan_some (cfg : Config) (row : Int) (h : Nat)
    (arr2 : List (Option Nat))
    (hB : levelArr cfg ((cfg.levelCount : Int) + row + 1) = some arr2) :
    childGuardColspan cfg row h = (jsGetN arr2 (realToNestedM cfg (row + 1) h)).getD 0 := by
  simp [childGuardColspan, hB]

/-- The children a recursive marking recurses into directly: the child
headers beyond the first whose colspan at the child level exceeds 1,
each translated to its nested position. -/
def directMarkTargets (cfg : Config) (row : Int) (col : Nat)
    (arr : List (Option Nat)) : List Nat :=
  ((getChildHeaders cfg row col (jsGetN arr col)).drop 1).filterMap
    (fun h => if childGuardColspan cfg row h > 1 then
      some (realToNestedM cfg (row + 1) h) else none)

theorem markChildKeys_level (cfg : Config) (fuel : Nat) (row : Int) (h : Nat)
    (k : Int × Nat) (hk : k ∈ markChildKeys cfg fuel row h) : row + 1 ≤ k.1 := by
  rcases hB : levelArr cfg ((cfg.levelCount : Int) + row + 1) with _ | arr2
  · rw [markChildKeys_none cfg fuel row h hB] at hk
    simp at hk
  · by_cases hg : (jsGetN arr2 (realToNestedM cfg (row + 1) h)).getD 0 > 1
    · rw [markChildKeys_some_pos cfg fuel row h arr2 hB hg] at hk
      exact markKeysFuel_level cfg fuel (row + 1) _ k hk
    · rw [markChildKeys_some_neg cfg fuel row h arr2 hB hg] at hk
      simp at hk

theorem markKeys_row_succ_mem (cfg : Config) (row : Int) (col : Nat)
    (arr : List (Option Nat))
    (hA : levelArr cfg ((cfg.levelCount : Int) + row) = some arr) (c2 : Nat) :
    ((row + 1, c2) ∈ markKeys cfg row col) ↔
      c2 ∈ directMarkTargets cfg row col arr := by
  rw [markKeys, markKeysFuel_succ_some cfg (cfg.colspan.length + 1) row col arr hA]
  unfold directMarkTargets
  constructor
  · intro hmem
    rcases List.mem_cons.mp hmem with heq | h2
    · exfalso
      have h3 : row + 1 = row := congrArg Prod.fst heq
      omega
    · obtain ⟨h, hhl, hk⟩ := List.mem_flatMap.mp h2
      rcases hB : levelArr cfg ((cfg.levelCount : Int) + row + 1) with _ | arr2
      · rw [markChildKeys_none cfg (cfg.colspan.length + 1) row h hB] at hk
        simp at hk
      · by_cases hg : (jsGetN arr2 (realToNestedM cfg (row + 1) h)).getD 0 > 1
        · rw [markChildKeys_some_pos cfg (cfg.colspan.length + 1) row h arr2 hB hg] at hk
          have hc2 : c2 = realToNestedM cfg (row + 1) h := by
            rcases hC : levelArr cfg ((cfg.levelCount : Int) + (row + 1)) with _ | arr3
            · rw [markKeysFuel_succ_none cfg cfg.colspan.length (row + 1)
                (realToNestedM cfg (row + 1) h) hC] at hk
              exact congrArg Prod.snd (List.mem_singleton.mp hk)
            · rw [markKeysFuel_succ_some cfg cfg.colspan.length (row + 1)
                (realToNestedM cfg (row + 1) h) arr3 hC] at hk
              rcases List.mem_cons.mp hk with heq2 | h3
              · exact congrArg Prod.snd heq2
              · exfalso
                obtain ⟨h4, _, hk4⟩ := List.mem_flatMap.mp h3
                have := markChildKeys_level cfg cfg.colspan.length (row + 1) h4 _ hk4
                simp at this
          apply List.mem_filterMap.mpr
          refine ⟨h, hhl, ?_⟩
          rw [if_pos (by rw [childGuardColspan_some cfg row h arr2 hB]; exact hg), hc2]
        · rw [markChildKeys_some_neg cfg (cfg.colspan.length + 1) row h arr2 hB hg] at hk
          simp at hk
  · intro hmem
    obtain ⟨h, hhl, hfn⟩ := List.mem_filterMap.mp hmem
    by_cases hg : childGuardColspan cfg row h > 1
    · rw [if_pos hg] at hfn
      have hc2 : realToNestedM cfg (row + 1) h = c2 := Option.some.inj hfn
      apply List.mem_cons_of_mem
      apply List.mem_flatMap.mpr
      refine ⟨h, hhl, ?_⟩
      rcases hB : levelArr cfg ((cfg.levelCount : Int) + row + 1) with _ | arr2
      · rw [childGuardColspan_none cfg row h hB] at hg
        omega
      · have hg2 : (jsGetN arr2 (realToNestedM cfg (row + 1) h)).getD 0 > 1 := by
          rw [childGuardColspan_some cfg row h arr2 hB] at hg
          exact hg
        rw [markChildKeys_some_pos cfg (cfg.colspan.length + 1) row h arr2 hB hg2]
        rw [markKeysFuel_succ]
        apply List.mem_cons.mpr
        left
        rw [hc2]
    · rw [if_neg hg] at hfn
      exact absurd hfn (by simp)

/-- C9: during recursive descendant marking, on collapse and on expand
alike, the entries changed one level below the marked section are exactly
the children beyond the first whose colspan at the child level exceeds 1,
each marked with the same state; in particular the first immediate child
returned by the child resolver is never recursed into. -/
theorem C9_first_child_excluded (cfg : Config) (st : MarkState) (row : Int)
    (col : Nat) (s : Store) (arr : List (Option Nat))
    (hA : levelArr cfg ((cfg.levelCount : Int) + row) = some arr) (c2 : Nat) :
    (markSectionAs cfg st row col true s).1 (row + 1) c2 =
      if c2 ∈ directMarkTargets cfg row col arr then some (markValue st)
      else s (row + 1) c2 := by
  rw [markSectionAs_writes cfg st row col s (row + 1) c2]
  by_cases hm : (row + 1, c2) ∈ markKeys cfg row col
  · rw [if_pos hm, if_pos ((markKeys_row_succ_mem cfg row col arr hA c2).mp hm)]
  · rw [if_neg hm,
      if_neg (fun hc => hm ((markKeys_row_succ_mem cfg row col arr hA c2).mpr hc))]

/-- C9, witness at a concrete input: in the cascade configuration the
merged child at nested position 2 is a direct recursion target while the
first child is not. -/
theorem C9_first_child_excluded_witness :
    (markSectionAs cfgCascade MarkState.collapsed (-2) 0 true emptyStore).1 (-2 + 1) 2 =
      (if 2 ∈ directMarkTargets cfgCascade (-2) 0 [some 4]
        then some (markValue MarkState.collapsed)
        else emptyStore (-2 + 1) 2) :=
  C9_first_child_excluded cfgCascade MarkState.collapsed (-2) 0 emptyStore [some 4]
    (by decide) 2

/-! ### Idempotence of a repeated toggle -/

theorem markSectionAs_idem (cfg : Config) (st : MarkState) (row : Int) (col : Nat)
    (s : Store) (r : Int) (c2 : Nat) :
    (markSectionAs cfg st row col true ((markSectionAs cfg st row col true s).1)).1 r c2 =
      (markSectionAs cfg st row col true s).1 r c2 := by
  by_cases hm : (r, c2) ∈ markKeys cfg row col <;>
    simp [markSectionAs_writes, hm]

theorem toggle_collapse_idem (cfg : Config) (row : Int) (col : Nat) (c : Nat)
    (off : Int) (hs : HiddenSettings) :
    toggleCollapsedSection cfg row col (some c) off ToggleAction.collapse
      (toggleCollapsedSection cfg row col (some c) off ToggleAction.collapse hs) =
    toggleCollapsedSection cfg row col (some c) off ToggleAction.collapse hs := by
  have hmem2 : ∀ i ∈ intRange (firstElemColspan (getChildHeaders cfg row col (some c)))
      (c : Int),
      (((col : Int) + off) + i) ∈
        readHiddenS (toggleCollapsedSection cfg row col (some c) off
          ToggleAction.collapse hs) := by
    intro i hi
    rw [toggle_collapse_result]
    by_cases hcur : (((col : Int) + off) + i) ∈ readHiddenS hs
    · exact List.mem_append.mpr (Or.inl hcur)
    · refine List.mem_append.mpr (Or.inr ?_)
      exact List.mem_map.mpr ⟨i, List.mem_filter.mpr ⟨hi, by simpa using hcur⟩, rfl⟩
  conv_lhs => rw [toggle_collapse_eq]
  rw [foldAdd_skip ((col : Int) + off)
    (readHiddenS (toggleCollapsedSection cfg row col (some c) off
      ToggleAction.collapse hs)) _ _ hmem2]
  rfl

theorem toggle_expand_idem (cfg : Config) (row : Int) (col : Nat) (c : Nat)
    (off : Int) (hs : HiddenSettings) (hnd : (readHiddenS hs).Nodup) :
    toggleCollapsedSection cfg row col (some c) off ToggleAction.expand
      (toggleCollapsedSection cfg row col (some c) off ToggleAction.expand hs) =
    toggleCollapsedSection cfg row col (some c) off ToggleAction.expand hs := by
  obtain ⟨hnd1, hmem1⟩ :=
    foldErase_nodup_mem ((col : Int) + off) (intRange 1 (c : Int)) (readHiddenS hs) hnd
  have hnone : ∀ i ∈ intRange 1 (c : Int),
      (((col : Int) + off) + i) ∉
        readHiddenS (toggleCollapsedSection cfg row col (some c) off
          ToggleAction.expand hs) := by
    intro i hi hcontra
    have h2 := (hmem1 ((((col : Int) + off)) + i)).mp hcontra
    exact h2.2 i hi rfl
  conv_lhs => rw [toggle_expand_eq]
  rw [foldErase_skip ((col : Int) + off) (intRange 1 (c : Int))
    (readHiddenS (toggleCollapsedSection cfg row col (some c) off
      ToggleAction.expand hs)) hnone]
  rfl

/-- C8 counterexample: with a duplicated entry in the hidden-column list,
expanding an already-expanded section changes the Column Visibility Store
again: each pass removes one occurrence, so the second application does
not produce the same state as the first. -/
theorem C8_idem_cex :
    (clickSection cfgOneLevel (-1) 0 (some 2) 0 ToggleAction.expand
        (clickSection cfgOneLevel (-1) 0 (some 2) 0 ToggleAction.expand
          (emptyStore, HiddenSettings.hcols (some [1, 1])))).2 ≠
      (clickSection cfgOneLevel (-1) 0 (some 2) 0 ToggleAction.expand
        (emptyStore, HiddenSettings.hcols (some [1, 1]))).2 := by
  decide

/-- C8 amended: repeating the same toggle leaves both stores unchanged,
with one proviso the counterexample forces: for expand, the hidden list
must hold no duplicate entry (the set semantics the Column Visibility
Store is specified with).  Collapse is idempotent unconditionally, and
the Section State Store is idempotent under both actions. -/
theorem C8_idem_amended (cfg : Config) (row : Int) (col : Nat) (c : Nat) (off : Int)
    (x : Store × HiddenSettings)
    (hA : levelArr cfg ((cfg.levelCount : Int) + row) ≠ none) :
    ((∀ (r : Int) (c2 : Nat),
        (clickSection cfg row col (some c) off ToggleAction.collapse
          (clickSection cfg row col (some c) off ToggleAction.collapse x)).1 r c2 =
        (clickSection cfg row col (some c) off ToggleAction.collapse x).1 r c2) ∧
      (clickSection cfg row col (some c) off ToggleAction.collapse
        (clickSection cfg row col (some c) off ToggleAction.collapse x)).2 =
      (clickSection cfg row col (some c) off ToggleAction.collapse x).2) ∧
    ((readHiddenS x.2).Nodup →
      (∀ (r : Int) (c2 : Nat),
        (clickSection cfg row col (some c) off ToggleAction.expand
          (clickSection cfg row col (some c) off ToggleAction.expand x)).1 r c2 =
        (clickSection cfg row col (some c) off ToggleAction.expand x).1 r c2) ∧
      (clickSection cfg row col (some c) off ToggleAction.expand
        (clickSection cfg row col (some c) off ToggleAction.expand x)).2 =
      (clickSection cfg row col (some c) off ToggleAction.expand x).2) := by
  constructor
  · constructor
    · intro r c2
      rw [clickSection_collapse_eq cfg row col (some c) off
          (clickSection cfg row col (some c) off ToggleAction.collapse x) hA,
        clickSection_collapse_eq cfg row col (some c) off x hA]
      exact markSectionAs_idem cfg MarkState.collapsed row col x.1 r c2
    · rw [clickSection_collapse_eq cfg row col (some c) off
          (clickSection cfg row col (some c) off ToggleAction.collapse x) hA,
        clickSection_collapse_eq cfg row col (some c) off x hA]
      exact toggle_collapse_idem cfg row col c off x.2
  · intro hnd
    constructor
    · intro r c2
      rw [clickSection_expand_eq cfg row col (some c) off
          (clickSection cfg row col (some c) off ToggleAction.expand x) hA,
        clickSection_expand_eq cfg row col (some c) off x hA]
      exact markSectionAs_idem cfg MarkState.expanded row col x.1 r c2
    · rw [clickSection_expand_eq cfg row col (some c) off
          (clickSection cfg row col (some c) off ToggleAction.expand x) hA,
        clickSection_expand_eq cfg row col (some c) off x hA]
      exact toggle_expand_idem cfg row col c off x.2 hnd

/-- C8 amended, witness at a concrete input. -/
theorem C8_idem_amended_witness :
    ((∀ (r : Int) (c2 : Nat),
        (clickSection cfgOneLevel (-1) 0 (some 2) 0 ToggleAction.collapse
          (clickSection cfgOneLevel (-1) 0 (some 2) 0 ToggleAction.collapse
            (emptyStore, HiddenSettings.hcols (some [5])))).1 r c2 =
        (clickSection cfgOneLevel (-1) 0 (some 2) 0 ToggleAction.collapse
          (emptyStore, HiddenSettings.hcols (some [5]))).1 r c2) ∧
      (clickSection cfgOneLevel (-1) 0 (some 2) 0 ToggleAction.collapse
        (clickSection cfgOneLevel (-1) 0 (some 2) 0 ToggleAction.collapse
          (emptyStore, HiddenSettings.hcols (some [5])))).2 =
      (clickSection cfgOneLevel (-1) 0 (some 2) 0 ToggleAction.collapse
        (emptyStore, HiddenSettings.hcols (some [5]))).2) ∧
    ((readHiddenS (HiddenSettings.hcols (some [5]))).Nodup →
      (∀ (r : Int) (c2 : Nat),
        (clickSection cfgOneLevel (-1) 0 (some 2) 0 ToggleAction.expand
          (clickSection cfgOneLevel (-1) 0 (some 2) 0 ToggleAction.expand
            (emptyStore, HiddenSettings.hcols (some [5])))).1 r c2 =
        (clickSection cfgOneLevel (-1) 0 (some 2) 0 ToggleAction.expand
          (emptyStore, HiddenSettings.hcols (some [5]))).1 r c2) ∧
      (clickSection cfgOneLevel (-1) 0 (some 2) 0 ToggleAction.expand
        (clickSection cfgOneLevel (-1) 0 (some 2) 0 ToggleAction.expand
          (emptyStore, HiddenSettings.hcols (some [5])))).2 =
      (clickSection cfgOneLevel (-1) 0 (some 2) 0 ToggleAction.expand
        (emptyStore, HiddenSettings.hcols (some [5]))).2) :=
  C8_idem_amended cfgOneLevel (-1) 0 2 0 (emptyStore, HiddenSettings.hcols (some [5]))
    (by decide)

/-- The columns read of a replaced settings object. -/
theorem readHiddenS_hcols (l : List Int) :
    readHiddenS (HiddenSettings.hcols (some l)) = l := rfl

/-- C1 counterexample: with real column 2 already hidden before the
collapse and the level-1 merged child already collapsed, collapsing and
then expanding the level-0 section of the cascade configuration leaves
the hidden set empty (losing the pre-existing entry 2) and leaves the
merged child expanded (losing its collapsed flag), so neither the Column
Visibility Store nor isCollapsed is restored. -/
theorem C1_roundtrip_cex :
    readHiddenS (clickSection cfgCascade (-2) 0 (some 4) 0 ToggleAction.expand
      (clickSection cfgCascade (-2) 0 (some 4) 0 ToggleAction.collapse
        (storeChildCollapsed, HiddenSettings.hcols (some [2])))).2 = [] ∧
    readHiddenS (HiddenSettings.hcols (some [2])) = [2] ∧
    generateIndicatorCollapsed storeChildCollapsed (-1) 2 = true ∧
    generateIndicatorCollapsed
      (clickSection cfgCascade (-2) 0 (some 4) 0 ToggleAction.expand
        (clickSection cfgCascade (-2) 0 (some 4) 0 ToggleAction.collapse
          (storeChildCollapsed, HiddenSettings.hcols (some [2])))).1 (-1) 2 = false := by
  refine ⟨by decide, by decide, by decide, by decide⟩

/-- C1 amended: collapse followed immediately by expand restores the
hidden-column list and every observable collapsed flag, provided no real
column in the interior of the toggled span (offsets 1 through colspan
minus 1 from the base column) was hidden beforehand and no section the
marking reaches (the section and its marked descendants) was collapsed
beforehand — the two conditions the counterexample shows to be
necessary. -/
theorem C1_roundtrip_amended (cfg : Config) (row : Int) (col : Nat) (c : Nat)
    (off : Int) (x : Store × HiddenSettings)
    (hA : levelArr cfg ((cfg.levelCount : Int) + row) ≠ none)
    (hHid : ∀ i : Int, 1 ≤ i → i < (c : Int) →
      (((col : Int) + off) + i) ∉ readHiddenS x.2)
    (hSec : ∀ k ∈ markKeys cfg row col, x.1 k.1 k.2 ≠ some (JsVal.bool true)) :
    readHiddenS (clickSection cfg row col (some c) off ToggleAction.expand
      (clickSection cfg row col (some c) off ToggleAction.collapse x)).2 =
      readHiddenS x.2 ∧
    ∀ (r : Int) (c2 : Nat),
      generateIndicatorCollapsed
        (clickSection cfg row col (some c) off ToggleAction.expand
          (clickSection cfg row col (some c) off ToggleAction.collapse x)).1 r c2 =
      generateIndicatorCollapsed x.1 r c2 := by
  have hclick : clickSection cfg row col (some c) off ToggleAction.expand
      (clickSection cfg row col (some c) off ToggleAction.collapse x) =
      ((markSectionAs cfg MarkState.expanded row col true
          ((markSectionAs cfg MarkState.collapsed row col true x.1).1)).1,
        toggleCollapsedSection cfg row col (some c) off ToggleAction.expand
          (toggleCollapsedSection cfg row col (some c) off ToggleAction.collapse x.2)) := by
    rw [clickSection_collapse_eq cfg row col (some c) off x hA]
    rw [clickSection_expand_eq cfg row col (some c) off _ hA]
  rw [hclick]
  have hf1 : 1 ≤ firstElemColspan (getChildHeaders cfg row col (some c)) :=
    firstElemColspan_ge_one cfg row col (some c)
  constructor
  · show readHiddenS (toggleCollapsedSection cfg row col (some c) off ToggleAction.expand
      (toggleCollapsedSection cfg row col (some c) off ToggleAction.collapse x.2)) =
      readHiddenS x.2
    have hP : ∀ i ∈ intRange (firstElemColspan (getChildHeaders cfg row col (some c)))
        (c : Int),
        (fun i => decide ((((col : Int) + off) + i) ∉ readHiddenS x.2)) i = true := by
      intro i hi
      rcases mem_intRange.mp hi with ⟨h1, h2⟩
      simpa using hHid i (le_trans hf1 h1) h2
    have hcolr : readHiddenS (toggleCollapsedSection cfg row col (some c) off
        ToggleAction.collapse x.2) =
        readHiddenS x.2 ++
          (intRange (firstElemColspan (getChildHeaders cfg row col (some c))) (c : Int)).map
            (fun i => ((col : Int) + off) + i) := by
      rw [toggle_collapse_result, List.filter_eq_self.mpr hP]
    rw [toggle_expand_eq]
    show (intRange 1 (c : Int)).foldl
        (fun arr i => arr.erase (((col : Int) + off) + i))
        (readHiddenS (toggleCollapsedSection cfg row col (some c) off
          ToggleAction.collapse x.2)) = readHiddenS x.2
    rw [hcolr]
    rcases le_or_lt (firstElemColspan (getChildHeaders cfg row col (some c))) (c : Int)
      with hfc | hfc
    · have hskip : ∀ i ∈ intRange 1
          (firstElemColspan (getChildHeaders cfg row col (some c))),
          (((col : Int) + off) + i) ∉
            readHiddenS x.2 ++
              (intRange (firstElemColspan (getChildHeaders cfg row col (some c)))
                (c : Int)).map (fun i => ((col : Int) + off) + i) := by
        intro i hi hcmem
        rcases mem_intRange.mp hi with ⟨h1, h2⟩
        rcases List.mem_append.mp hcmem with hin | hin
        · exact hHid i h1 (lt_of_lt_of_le h2 hfc) hin
        · rcases List.mem_map.mp hin with ⟨j, hj, hqe⟩
          rcases mem_intRange.mp hj with ⟨h3, _⟩
          have : j = i := by omega
          omega
      rw [intRange_split
          (firstElemColspan (getChildHeaders cfg row col (some c)) - 1).toNat 1
          (firstElemColspan (getChildHeaders cfg row col (some c))) (c : Int) rfl hf1 hfc,
        List.foldl_append,
        foldErase_skip ((col : Int) + off)
          (intRange 1 (firstElemColspan (getChildHeaders cfg row col (some c))))
          (readHiddenS x.2 ++
            (intRange (firstElemColspan (getChildHeaders cfg row col (some c)))
              (c : Int)).map (fun i => ((col : Int) + off) + i)) hskip]
      exact foldErase_restore ((col : Int) + off) (readHiddenS x.2) (c : Int)
        ((c - firstElemColspan (getChildHeaders cfg row col (some c))).toNat)
        (firstElemColspan (getChildHeaders cfg row col (some c))) rfl
        (fun t ht1 ht2 => hHid t (le_trans hf1 ht1) ht2)
    · rw [intRange_empty (le_of_lt hfc), List.map_nil, List.append_nil]
      exact foldErase_skip ((col : Int) + off) (intRange 1 (c : Int)) (readHiddenS x.2)
        (fun i hi => by
          rcases mem_intRange.mp hi with ⟨h1, h2⟩
          exact hHid i h1 h2)
  · intro r c2
    show generateIndicatorCollapsed
      ((markSectionAs cfg MarkState.expanded row col true
        ((markSectionAs cfg MarkState.collapsed row col true x.1).1)).1) r c2 =
      generateIndicatorCollapsed x.1 r c2
    have hval : (markSectionAs cfg MarkState.expanded row col true
        ((markSectionAs cfg MarkState.collapsed row col true x.1).1)).1 r c2 =
        if (r, c2) ∈ markKeys cfg row col then some JsVal.undefined else x.1 r c2 := by
      rw [markSectionAs_writes cfg MarkState.expanded row col _ r c2,
        markSectionAs_writes cfg MarkState.collapsed row col x.1 r c2]
      by_cases hm : (r, c2) ∈ markKeys cfg row col <;> simp [hm, markValue]
    unfold generateIndicatorCollapsed
    rw [hval]
    by_cases hm : (r, c2) ∈ markKeys cfg row col
    · rw [if_pos hm]
      rcases hx : x.1 r c2 with _ | v
      · rfl
      · rcases v with b | _
        · cases b
          · rfl
          · exact absurd hx (hSec (r, c2) hm)
        · rfl
    · rw [if_neg hm]

/-- C1 amended, witness at a concrete input. -/
theorem C1_roundtrip_amended_witness :
    readHiddenS (clickSection cfgCascade (-2) 0 (some 4) 0 ToggleAction.expand
      (clickSection cfgCascade (-2) 0 (some 4) 0 ToggleAction.collapse
        (emptyStore, HiddenSettings.hcols (some [])))).2 =
      readHiddenS (HiddenSettings.hcols (some [])) ∧
    ∀ (r : Int) (c2 : Nat),
      generateIndicatorCollapsed
        (clickSection cfgCascade (-2) 0 (some 4) 0 ToggleAction.expand
          (clickSection cfgCascade (-2) 0 (some 4) 0 ToggleAction.collapse
            (emptyStore, HiddenSettings.hcols (some [])))).1 r c2 =
      generateIndicatorCollapsed emptyStore r c2 :=
  C1_roundtrip_amended cfgCascade (-2) 0 4 0 (emptyStore, HiddenSettings.hcols (some []))
    (by decide) (fun i _ _ h => by simp [readHiddenS] at h)
    (fun k hk => by simp [emptyStore])
